import Mathlib

/-!
Verification of the buy_smarter price-comparison repository.

The definitions below are a shallow embedding of the product-grouping,
aggregation and pagination logic of the API routes:

* `fallbackGroupProducts` embeds the function of the same name in
  src/unnamed/part_009 (group listings by the first three space-separated
  words of the raw name).
* `groupProductsByAI` embeds the function of the same name in
  src/unnamed/part_007 (group by the stored standard_name, falling back to
  the first four words of the raw name when it is blank).
* `groupProductsWithAI` embeds the function of the same name in
  src/unnamed/part_009; the external python classifier subprocess is a
  parameter `classify`, where `some` models a resolved prediction
  (including predictWithAI's internal fallback on subprocess failure) and
  `none` models the per-listing 5-second timeout, whose rejection is caught
  and the listing skipped.
* `aggregate` embeds the per-product SQL aggregation plus JavaScript
  rounding of src/unnamed/part_012 and src/app/api/cpu-products/route.ts.
* `paginate` / `totalPages` embed the slice/Math.ceil pagination shared by
  the listing routes.
* `matchProduct` is modelled from the spec (§4.2 Candidate Matcher): that
  component exists only as the external, unshipped predictor, so its
  brand/category guard is translated from the specification text.

Prices are modelled as rationals; JavaScript strings are Lean `String`s
(lists of characters); the JavaScript object used as a dictionary is an
association list that keeps insertion order, and the stable Array.sort is
modelled by insertion sort with the same comparator.
-/

namespace BuySmarter

/-- One row of the cpu_products table as read by the API routes
(src/unnamed/part_007 RawProduct interface). -/
structure RawProduct where
  id : String
  standard_name : String
  brand : String
  vendor_name : String
  raw_name : String
  price_bdt : ℚ
  availability_status : String
  product_url : String
  image_url : String
  description : String
  scraped_at : String
deriving DecidableEq

/-- One price entry of a grouped product (src/unnamed/part_007 PriceEntry). -/
structure PriceEntry where
  id : String
  vendor_name : String
  raw_name : String
  price_bdt : ℚ
  availability_status : String
  product_url : String
  image_url : String
  scraped_at : String
  description : String
deriving DecidableEq

/-- A grouped (canonical) product (src/unnamed/part_007 GroupedProduct). -/
structure GroupedProduct where
  id : String
  standard_name : String
  brand : String
  raw_names : List String
  min_price : ℚ
  max_price : ℚ
  avg_price : ℚ
  vendor_count : ℕ
  total_listings : ℕ
  vendors : List String
  images : List String
  price_entries : List PriceEntry
  ai_confidence : ℚ
deriving DecidableEq

/-- JavaScript String.prototype.split(' ') on the character list: split at
every single space, keeping empty fragments between consecutive spaces. -/
def splitOnSpace : List Char → List (List Char)
  | [] => [[]]
  | c :: cs =>
    if c = ' ' then [] :: splitOnSpace cs
    else
      match splitOnSpace cs with
      | [] => [[c]]
      | w :: ws => (c :: w) :: ws

/-- JavaScript Array.prototype.join(' '). -/
def joinSpace : List (List Char) → List Char
  | [] => []
  | [w] => w
  | w :: w2 :: ws => w ++ ' ' :: joinSpace (w2 :: ws)

/-- The fallback grouping key of src/unnamed/part_009 fallbackGroupProducts:
raw_name.split(' ').slice(0, 3).join(' '). -/
def normalize (s : String) : String :=
  String.mk (joinSpace ((splitOnSpace s.data).take 3))

/-- The key used by src/unnamed/part_007 groupProductsByAI when the stored
standard_name is blank: raw_name.split(' ').slice(0, 4).join(' '). -/
def firstFourWords (s : String) : String :=
  String.mk (joinSpace ((splitOnSpace s.data).take 4))

/-- Whether `pat` occurs at the head of the character list. -/
def tokAt : List Char → List Char → Bool
  | [], _ => true
  | _ :: _, [] => false
  | p :: ps, c :: cs => p = c && tokAt ps cs

/-- JavaScript String.prototype.includes: `pat` occurs somewhere in the list. -/
def containsTok (pat : List Char) : List Char → Bool
  | [] => tokAt pat []
  | c :: cs => tokAt pat (c :: cs) || containsTok pat cs

/-- src/unnamed/part_009 (and part_007) extractBrand: substring tests on the
lower-cased standard name. -/
def extractBrand (standardName : String) : String :=
  let l := standardName.data.map Char.toLower
  if containsTok "intel".data l then "Intel"
  else if containsTok "amd".data l then "AMD"
  else if containsTok "ryzen".data l then "AMD"
  else if containsTok "core".data l then "Intel"
  else "Unknown"

/-- The price entry pushed for a raw product row. -/
def mkEntry (p : RawProduct) : PriceEntry :=
  ⟨p.id, p.vendor_name, p.raw_name, p.price_bdt, p.availability_status,
   p.product_url, p.image_url, p.scraped_at, p.description⟩

/-- JavaScript Array.from(new Set([...xs, v])) for an xs that is already
duplicate-free: keep first occurrences, append v only if new. -/
def dedupAppend (xs : List String) (v : String) : List String :=
  if v ∈ xs then xs else xs ++ [v]

/-- The shared loop body that folds one raw product row into its group.
`guardPos = true` models the part_007 variant, which updates min/max only
when 0 < price_bdt; the part_009 variants update unconditionally. -/
def addEntry (guardPos : Bool) (g : GroupedProduct) (p : RawProduct) : GroupedProduct :=
  let upd : Bool := !guardPos || decide (0 < p.price_bdt)
  let vendors2 := dedupAppend g.vendors p.vendor_name
  { g with
    raw_names := g.raw_names ++ [p.raw_name]
    min_price := if upd then min g.min_price p.price_bdt else g.min_price
    max_price := if upd then max g.max_price p.price_bdt else g.max_price
    vendor_count := vendors2.length
    total_listings := g.total_listings + 1
    vendors := vendors2
    images := if p.image_url ≠ "" then dedupAppend g.images p.image_url else g.images
    price_entries := g.price_entries ++ [mkEntry p] }

/-- The fresh group created when a key is seen for the first time. -/
def initGroup (key : String) (p : RawProduct) (conf : ℚ) : GroupedProduct :=
  { id := key, standard_name := key, brand := extractBrand key,
    raw_names := [], min_price := p.price_bdt, max_price := p.price_bdt,
    avg_price := p.price_bdt, vendor_count := 0, total_listings := 0,
    vendors := [], images := [], price_entries := [], ai_confidence := conf }

/-- Update the entry of key `k` in the insertion-ordered association list,
appending a new entry at the end when the key is absent (the JavaScript
object keyed by standard name). -/
def updateAssoc (k : String) (f : Option GroupedProduct → GroupedProduct) :
    List (String × GroupedProduct) → List (String × GroupedProduct)
  | [] => [(k, f none)]
  | (k2, g) :: rest =>
    if k2 = k then (k2, f (some g)) :: rest
    else (k2, g) :: updateAssoc k f rest

/-- Bind one listing to the group of key `k`, creating the group if needed. -/
def bindListing (guardPos : Bool) (k : String) (conf : ℚ)
    (acc : List (String × GroupedProduct)) (p : RawProduct) :
    List (String × GroupedProduct) :=
  updateAssoc k (fun og => addEntry guardPos (og.getD (initGroup k p conf)) p) acc

/-- The final pass computing avg_price as the arithmetic mean of the
group's price entries. -/
def setAvg (g : GroupedProduct) : GroupedProduct :=
  { g with avg_price :=
      ((g.price_entries.map PriceEntry.price_bdt).sum) / (g.price_entries.length : ℚ) }

/-- The sort comparator of the grouping routes: vendor_count descending,
then min_price ascending. -/
def groupLE (a b : GroupedProduct) : Prop :=
  if a.vendor_count = b.vendor_count then a.min_price ≤ b.min_price
  else b.vendor_count < a.vendor_count

instance : DecidableRel groupLE := fun a b => by
  unfold groupLE; infer_instance

/-- Object.values of the grouping dictionary, average pass, then the stable
JavaScript sort (modelled by insertion sort with the same comparator). -/
def finalizeGroups (assoc : List (String × GroupedProduct)) : List GroupedProduct :=
  List.insertionSort groupLE ((assoc.map Prod.snd).map setAvg)

/-- src/unnamed/part_009 fallbackGroupProducts: group by the first three
words of raw_name; fallback ai_confidence is 0.5. -/
def fallbackGroupProducts (products : List RawProduct) : List GroupedProduct :=
  finalizeGroups
    (products.foldl (fun acc p => bindListing false (normalize p.raw_name) (1/2) acc p) [])

/-- JavaScript test `!standardName || standardName.trim() === ''` (the empty
string is falsy, so the truthiness test collapses into the trim test). -/
def jsBlank (s : String) : Bool := s.trim = ""

/-- The grouping key of src/unnamed/part_007 groupProductsByAI. -/
def aiKey (p : RawProduct) : String :=
  if jsBlank p.standard_name then firstFourWords p.raw_name else p.standard_name

/-- src/unnamed/part_007 groupProductsByAI: group by standard_name (or the
four-word fallback key); min/max update is guarded by 0 < price_bdt;
simulated ai_confidence is 0.85. -/
def groupProductsByAI (products : List RawProduct) : List GroupedProduct :=
  finalizeGroups
    (products.foldl (fun acc p => bindListing true (aiKey p) (17/20) acc p) [])

/-- A resolved prediction of the external classifier (src/unnamed/part_009
predictWithAI's resolution value). -/
structure Prediction where
  predicted_standard_name : String
  confidence : ℚ
deriving DecidableEq

/-- predictWithAI's internal fallback: on python subprocess failure, missing
JSON output, or a reported error, it resolves with the raw name itself and
confidence 0.1 (src/unnamed/part_009, lines 211-266). -/
def predictFallback (rawName : String) : Prediction := ⟨rawName, 1/10⟩

/-- src/unnamed/part_009 groupProductsWithAI. Only the first 50 products are
processed. `classify raw = some pred` models the per-listing prediction
promise resolving (predictWithAI itself resolves with `predictFallback raw`
on subprocess errors); `classify raw = none` models the per-listing
5-second timeout, whose rejection is caught and the listing skipped. -/
def groupProductsWithAI (classify : String → Option Prediction)
    (products : List RawProduct) : List GroupedProduct :=
  finalizeGroups
    ((products.take 50).foldl (fun acc p =>
      match classify p.raw_name with
      | none => acc
      | some pred =>
          bindListing false pred.predicted_standard_name pred.confidence acc p) [])

/-- A listing row as seen by the per-product aggregation query: only the
vendor name and price take part in the statistics. -/
structure ListingRow where
  vendor_name : String
  price_bdt : ℚ
deriving DecidableEq

/-- The aggregate view returned by the product-detail endpoints. -/
structure AggregateView where
  min_price : ℚ
  max_price : ℚ
  avg_price : ℚ
  vendor_count : ℕ
  total_listings : ℕ
deriving DecidableEq

/-- JavaScript Math.round: round half away from zero upward. -/
def jsRound (q : ℚ) : ℤ := ⌊q + 1/2⌋

/-- JavaScript Math.round(x * 100) / 100 as used on avg_price. -/
def round2 (q : ℚ) : ℚ := (jsRound (q * 100) : ℚ) / 100

/-- The per-product SQL aggregation of src/unnamed/part_012 (and
src/app/api/cpu-products/route.ts): rows are filtered to price_bdt > 0,
then MIN, MAX, AVG (rounded to 2 decimals in JavaScript),
COUNT(DISTINCT vendor_name) and COUNT(*) are computed; when the filtered
set is empty the SQL GROUP BY yields no row, db.get returns nothing, and
the route answers with the 404 sentinel, modelled as `none`. -/
def aggregate (rows : List ListingRow) : Option AggregateView :=
  match rows.filter (fun r => decide (0 < r.price_bdt)) with
  | [] => none
  | r :: rs =>
    some { min_price := (rs.map ListingRow.price_bdt).foldl min r.price_bdt,
           max_price := (rs.map ListingRow.price_bdt).foldl max r.price_bdt,
           avg_price := round2 (((r :: rs).map ListingRow.price_bdt).sum / ((r :: rs).length : ℚ)),
           vendor_count := ((r :: rs).map ListingRow.vendor_name).dedup.length,
           total_listings := (r :: rs).length }

/-- JavaScript Array.prototype.slice(s, e) for non-negative indices. -/
def jsSlice {α : Type _} (l : List α) (s e : ℕ) : List α := (l.take e).drop s

/-- The pagination slice shared by the listing routes:
filteredProducts.slice(startIndex, startIndex + limit) with
startIndex = (page - 1) * limit. -/
def paginate {α : Type _} (l : List α) (page limit : ℕ) : List α :=
  jsSlice l ((page - 1) * limit) ((page - 1) * limit + limit)

/-- Math.ceil(total / limit) of the listing routes, as exact ceiling
division of the rationals. -/
def totalPages (total limit : ℕ) : ℤ := ⌈(total : ℚ) / (limit : ℚ)⌉

/-- Component categories of the spec's data model (§3). -/
inductive PCCategory
  | cpu | gpu | ram | motherboard | other
deriving DecidableEq

/-- Brands of the spec's data model (§3). -/
inductive PCBrand
  | intel | amd | nvidia | otherBrand
deriving DecidableEq

/-- Modelled from the spec: a CanonicalProduct (§3) as seen by the Candidate
Matcher, with its count of mapped listings for the tie-break (§4.2). The
matcher itself ships only as the external, unshipped python predictor, so
this data model follows the specification text. -/
structure CanonicalProduct where
  id : ℕ
  canonicalName : String
  brand : PCBrand
  category : PCCategory
  mappedListings : ℕ
deriving DecidableEq

/-- Modelled from the spec: the Matcher's output (§3 MatchDecision). -/
structure MatchDecision where
  candidateProductId : ℕ
  score : ℚ

/-- Case-sensitive token presence in a raw name. -/
def hasTok (s pat : String) : Bool := containsTok pat.data s.data

/-- Modelled from the spec: the brand/category cross-validation guard of
§4.2 — a candidate is excluded before scoring when its brand or category is
structurally incompatible with tokens of the raw name: a raw name
containing "NVIDIA" must never match a CPU-, RAM- or Motherboard-category
product, and "Ryzen" implies AMD, never Intel. -/
def brandGuardOk (raw : String) (c : CanonicalProduct) : Bool :=
  !(hasTok raw "NVIDIA" &&
      (decide (c.category = PCCategory.cpu) || decide (c.category = PCCategory.ram) ||
       decide (c.category = PCCategory.motherboard))) &&
  !(hasTok raw "Ryzen" && decide (c.brand = PCBrand.intel))

/-- Modelled from the spec: pick the candidate with the highest score,
breaking exact ties in favour of more mapped listings (§4.2). -/
def pickBest (score : CanonicalProduct → ℚ) : List CanonicalProduct → Option CanonicalProduct
  | [] => none
  | c :: cs =>
    match pickBest score cs with
    | none => some c
    | some b =>
      if score b < score c ∨ (score c = score b ∧ b.mappedListings < c.mappedListings)
      then some c else some b

/-- Modelled from the spec: the Candidate Matcher (§4.2), absent from src/
(only its external predictor call site exists). Candidates failing the
brand/category guard are excluded before scoring; candidates below the 0.60
floor are dropped; the best remaining candidate wins. The similarity metric
itself is left as the parameter `score`, since the spec leaves it open. -/
def matchProduct (score : String → String → ℚ) (raw : String)
    (cands : List CanonicalProduct) : Option CanonicalProduct :=
  let eligible := cands.filter (fun c => brandGuardOk raw c)
  let scored := eligible.filter (fun c => decide ((3 : ℚ)/5 ≤ score raw c.canonicalName))
  pickBest (fun c => score raw c.canonicalName) scored

/-- Modelled from the spec: the matcher's decision record. -/
def matchDecision (score : String → String → ℚ) (raw : String)
    (cands : List CanonicalProduct) : Option MatchDecision :=
  (matchProduct score raw cands).map (fun c => ⟨c.id, score raw c.canonicalName⟩)

/-- A concrete scraped row used in the batch scenarios of the spec's
testable properties. -/
def sampleRow (vendor raw : String) (price : ℚ) : RawProduct :=
  ⟨"1", "", "", vendor, raw, price, "In Stock", "", "", "", ""⟩

/-- The three-vendor Ryzen 5 5600 batch of the no-duplicate property. -/
def ryzen5600Batch : List RawProduct :=
  [sampleRow "Vendor A" "AMD Ryzen 5 5600 Processor" 18500,
   sampleRow "Vendor B" "Ryzen5 5600 6-Core" 19200,
   sampleRow "Vendor C" "Ryzen 5 5600" 19500]

/-- The distinct-SKU batch of the SKU-separation property. -/
def suffixBatch : List RawProduct :=
  [sampleRow "Vendor A" "Ryzen 7 7700" 30000,
   sampleRow "Vendor B" "Ryzen 7 7700X" 34000,
   sampleRow "Vendor C" "Radeon RX 7700XT" 52000]

/-- The four-listing price set of the aggregate-correctness property:
prices 18500, 19200, 0, 19500 from vendors A, B, A, C. -/
def aggregateBatch : List ListingRow :=
  [⟨"A", 18500⟩, ⟨"B", 19200⟩, ⟨"A", 0⟩, ⟨"C", 19500⟩]

/-- A constant similarity score used to instantiate the category guard. -/
def constScore : String → String → ℚ := fun _ _ => 1

/-- The candidate roster of the category-guard witness: a CPU product and a
GPU product. -/
def guardCands : List CanonicalProduct :=
  [⟨1, "Intel Core i5-12400F", PCBrand.intel, PCCategory.cpu, 5⟩,
   ⟨2, "NVIDIA GeForce RTX 4090", PCBrand.nvidia, PCCategory.gpu, 2⟩]

/-- Price-entry prices of a group are bracketed by its min and max fields. -/
def EntriesBounded (g : GroupedProduct) : Prop :=
  ∀ e ∈ g.price_entries, g.min_price ≤ e.price_bdt ∧ e.price_bdt ≤ g.max_price

/-- The structural invariant maintained for every group while folding a
batch of listings. -/
structure GroupInv (g : GroupedProduct) : Prop where
  entries_ne : g.price_entries ≠ []
  listings_eq : g.total_listings = g.price_entries.length
  raw_eq : g.raw_names.length = g.price_entries.length
  vendors_nodup : g.vendors.Nodup
  vendors_mem : ∀ v, v ∈ g.vendors ↔ v ∈ g.price_entries.map PriceEntry.vendor_name
  vcount : g.vendor_count = g.vendors.length
  bounded : EntriesBounded g

/-- The invariant every grouped product of the output satisfies: consistent
price statistics and counting fields. -/
def OutputInv (g : GroupedProduct) : Prop :=
  g.min_price ≤ g.avg_price ∧ g.avg_price ≤ g.max_price ∧
  g.vendor_count = (g.price_entries.map PriceEntry.vendor_name).toFinset.card ∧
  g.vendor_count ≤ g.total_listings ∧
  g.total_listings = g.price_entries.length ∧
  g.total_listings = g.raw_names.length

lemma splitOnSpace_ne_nil (l : List Char) : splitOnSpace l ≠ [] := by
  induction l with
  | nil => simp [splitOnSpace]
  | cons c cs ih =>
      by_cases h : c = ' '
      · simp [splitOnSpace, h]
      · simp only [splitOnSpace, if_neg h]
        rcases hs : splitOnSpace cs with _ | ⟨w, ws⟩
        · exact (ih hs).elim
        · simp

lemma splitOnSpace_no_space (l : List Char) :
    ∀ w ∈ splitOnSpace l, ∀ c ∈ w, c ≠ ' ' := by
  induction l with
  | nil => simp [splitOnSpace]
  | cons c cs ih =>
      by_cases h : c = ' '
      · simp only [splitOnSpace, if_pos h]
        intro w hw
        rcases List.mem_cons.mp hw with hw | hw
        · simp [hw]
        · exact ih w hw
      · simp only [splitOnSpace, if_neg h]
        rcases hs : splitOnSpace cs with _ | ⟨u, us⟩
        · exact (splitOnSpace_ne_nil cs hs).elim
        · intro w hw
          rcases List.mem_cons.mp hw with hw | hw
          · subst hw
            intro d hd
            rcases List.mem_cons.mp hd with hd | hd
            · simpa [hd] using h
            · exact ih u (by simp [hs]) d hd
          · exact ih w (by simp [hs, hw])

lemma splitOnSpace_append (w : List Char) (hw : ∀ c ∈ w, c ≠ ' ')
    (l : List Char) (u : List Char) (us : List (List Char))
    (h : splitOnSpace l = u :: us) :
    splitOnSpace (w ++ l) = (w ++ u) :: us := by
  induction w with
  | nil => simpa using h
  | cons c cs ih =>
      have hc : c ≠ ' ' := hw c (by simp)
      have ih2 : splitOnSpace (cs ++ l) = (cs ++ u) :: us :=
        ih (fun d hd => hw d (by simp [hd]))
      simp only [List.cons_append, splitOnSpace, if_neg hc]
      rw [show splitOnSpace (cs.append l) = (cs ++ u) :: us from ih2]

lemma splitOnSpace_joinSpace (ws : List (List Char)) (hne : ws ≠ [])
    (hw : ∀ w ∈ ws, ∀ c ∈ w, c ≠ ' ') :
    splitOnSpace (joinSpace ws) = ws := by
  induction ws with
  | nil => exact (hne rfl).elim
  | cons w tl ih =>
      rcases tl with _ | ⟨w2, ws2⟩
      · have : splitOnSpace (w ++ ([] : List Char)) = (w ++ []) :: [] :=
          splitOnSpace_append w (hw w (by simp)) [] [] [] (by simp [splitOnSpace])
        simpa [joinSpace] using this
      · have htl : splitOnSpace (joinSpace (w2 :: ws2)) = w2 :: ws2 :=
          ih (by simp) (fun v hv => hw v (by simp [hv]))
        have hsp : splitOnSpace (' ' :: joinSpace (w2 :: ws2)) = [] :: w2 :: ws2 := by
          simp [splitOnSpace, htl]
        have := splitOnSpace_append w (hw w (by simp))
          (' ' :: joinSpace (w2 :: ws2)) [] (w2 :: ws2) hsp
        simpa [joinSpace] using this

theorem normalize_idempotent (x : String) : normalize (normalize x) = normalize x := by
  unfold normalize
  have hTne : (splitOnSpace x.data).take 3 ≠ [] := by
    rw [Ne, List.take_eq_nil_iff]
    push_neg
    exact ⟨by norm_num, splitOnSpace_ne_nil x.data⟩
  have hTfree : ∀ w ∈ (splitOnSpace x.data).take 3, ∀ c ∈ w, c ≠ ' ' :=
    fun w hw => splitOnSpace_no_space x.data w (List.mem_of_mem_take hw)
  have hsplit : splitOnSpace (joinSpace ((splitOnSpace x.data).take 3)) =
      (splitOnSpace x.data).take 3 :=
    splitOnSpace_joinSpace _ hTne hTfree
  have hdata : (String.mk (joinSpace ((splitOnSpace x.data).take 3))).data =
      joinSpace ((splitOnSpace x.data).take 3) := rfl
  rw [hdata, hsplit, List.take_take, min_self]

/-- Witness for normalization idempotence at a concrete raw name. -/
theorem normalize_idempotent_witness :
    normalize (normalize "AMD Ryzen 5 5600 Processor") =
      normalize "AMD Ryzen 5 5600 Processor" :=
  normalize_idempotent "AMD Ryzen 5 5600 Processor"

lemma updateAssoc_forall (P : String × GroupedProduct → Prop) (k : String)
    (f : Option GroupedProduct → GroupedProduct) (acc : List (String × GroupedProduct))
    (hacc : ∀ kg ∈ acc, P kg)
    (hnew : P (k, f none))
    (hupd : ∀ g, P (k, g) → P (k, f (some g))) :
    ∀ kg ∈ updateAssoc k f acc, P kg := by
  induction acc with
  | nil => simpa [updateAssoc] using hnew
  | cons hd tl ih =>
      obtain ⟨k2, g⟩ := hd
      by_cases h : k2 = k
      · subst h
        simp only [updateAssoc, if_pos rfl]
        intro kg hkg
        rcases List.mem_cons.mp hkg with hkg | hkg
        · subst hkg
          exact hupd g (hacc (k2, g) (by simp))
        · exact hacc kg (by simp [hkg])
      · simp only [updateAssoc, if_neg h]
        intro kg hkg
        rcases List.mem_cons.mp hkg with hkg | hkg
        · subst hkg
          exact hacc (k2, g) (by simp)
        · exact ih (fun kg2 hkg2 => hacc kg2 (by simp [hkg2])) kg hkg

lemma updateAssoc_exists_self (Q : GroupedProduct → Prop) (k : String)
    (f : Option GroupedProduct → GroupedProduct) (acc : List (String × GroupedProduct))
    (hnew : Q (f none)) (hupd : ∀ g, Q (f (some g))) :
    ∃ kg ∈ updateAssoc k f acc, Q kg.2 := by
  induction acc with
  | nil => exact ⟨(k, f none), by simp [updateAssoc], hnew⟩
  | cons hd tl ih =>
      obtain ⟨k2, g⟩ := hd
      by_cases h : k2 = k
      · exact ⟨(k2, f (some g)), by simp [updateAssoc, h], hupd g⟩
      · obtain ⟨kg, hkg, hQ⟩ := ih
        exact ⟨kg, by simp [updateAssoc, h, hkg], hQ⟩

lemma updateAssoc_exists_mono (Q : GroupedProduct → Prop) (k : String)
    (f : Option GroupedProduct → GroupedProduct) (acc : List (String × GroupedProduct))
    (hupd : ∀ g, Q g → Q (f (some g)))
    (hex : ∃ kg ∈ acc, Q kg.2) :
    ∃ kg ∈ updateAssoc k f acc, Q kg.2 := by
  induction acc with
  | nil => simp at hex
  | cons hd tl ih =>
      obtain ⟨k2, g⟩ := hd
      obtain ⟨kg, hkg, hQ⟩ := hex
      by_cases h : k2 = k
      · rcases List.mem_cons.mp hkg with hkg | hkg
        · refine ⟨(k2, f (some g)), by simp [updateAssoc, h], ?_⟩
          have : kg.2 = g := by rw [hkg]
          exact hupd g (this ▸ hQ)
        · exact ⟨kg, by simp [updateAssoc, h, hkg], hQ⟩
      · rcases List.mem_cons.mp hkg with hkg | hkg
        · exact ⟨kg, by simp [updateAssoc, h, hkg], hQ⟩
        · obtain ⟨kg2, hkg2, hQ2⟩ := ih ⟨kg, hkg, hQ⟩
          exact ⟨kg2, by simp [updateAssoc, h, hkg2], hQ2⟩

lemma updateAssoc_map_fst (k : String) (f : Option GroupedProduct → GroupedProduct)
    (acc : List (String × GroupedProduct)) :
    (updateAssoc k f acc).map Prod.fst =
      if k ∈ acc.map Prod.fst then acc.map Prod.fst else acc.map Prod.fst ++ [k] := by
  induction acc with
  | nil => simp [updateAssoc]
  | cons hd tl ih =>
      obtain ⟨k2, g⟩ := hd
      by_cases h : k2 = k
      · subst h
        simp [updateAssoc]
      · simp only [updateAssoc, if_neg h, List.map_cons, ih]
        by_cases h2 : k ∈ tl.map Prod.fst
        · simp [h2, Ne.symm h]
        · simp [h2, Ne.symm h]

lemma updateAssoc_keys_nodup (k : String) (f : Option GroupedProduct → GroupedProduct)
    (acc : List (String × GroupedProduct))
    (h : (acc.map Prod.fst).Nodup) :
    ((updateAssoc k f acc).map Prod.fst).Nodup := by
  rw [updateAssoc_map_fst]
  by_cases h2 : k ∈ acc.map Prod.fst
  · simpa [h2] using h
  · simp only [h2, if_false]
    simpa [List.nodup_append, h2] using h

lemma foldGroups_keys_nodup (step : List (String × GroupedProduct) → RawProduct →
      List (String × GroupedProduct))
    (hstep : ∀ acc p, ((acc.map Prod.fst).Nodup) → (((step acc p).map Prod.fst).Nodup))
    (l : List RawProduct) (acc : List (String × GroupedProduct))
    (h : (acc.map Prod.fst).Nodup) :
    ((l.foldl step acc).map Prod.fst).Nodup := by
  induction l generalizing acc with
  | nil => simpa using h
  | cons p ps ih => exact ih _ (hstep acc p h)

lemma addEntry_standard_name (guardPos : Bool) (g : GroupedProduct) (p : RawProduct) :
    (addEntry guardPos g p).standard_name = g.standard_name := rfl

lemma foldGroups_standard_name_eq_key (guardPos : Bool)
    (key : RawProduct → String) (conf : RawProduct → ℚ)
    (l : List RawProduct) (acc : List (String × GroupedProduct))
    (hacc : ∀ kg ∈ acc, kg.2.standard_name = kg.1) :
    ∀ kg ∈ l.foldl (fun acc p => bindListing guardPos (key p) (conf p) acc p) acc,
      kg.2.standard_name = kg.1 := by
  induction l generalizing acc with
  | nil => simpa using hacc
  | cons p ps ih =>
      refine ih _ ?_
      intro kg hkg
      refine updateAssoc_forall (fun kg => kg.2.standard_name = kg.1) (key p) _ acc hacc ?_ ?_ kg hkg
      · simp [addEntry_standard_name, initGroup]
      · intro g hg
        simpa [addEntry_standard_name] using hg

lemma mem_finalizeGroups (g : GroupedProduct) (assoc : List (String × GroupedProduct)) :
    g ∈ finalizeGroups assoc ↔ ∃ kg ∈ assoc, g = setAvg kg.2 := by
  unfold finalizeGroups
  rw [List.mem_insertionSort]
  simp only [List.map_map, List.mem_map, Function.comp_apply]
  constructor
  · rintro ⟨kg, hkg, rfl⟩
    exact ⟨kg, hkg, rfl⟩
  · rintro ⟨kg, hkg, rfl⟩
    exact ⟨kg, hkg, rfl⟩

lemma setAvg_standard_name (g : GroupedProduct) : (setAvg g).standard_name = g.standard_name := rfl

lemma map_standard_name_finalizeGroups_nodup (assoc : List (String × GroupedProduct))
    (hkeys : (assoc.map Prod.fst).Nodup)
    (hnames : ∀ kg ∈ assoc, kg.2.standard_name = kg.1) :
    ((finalizeGroups assoc).map GroupedProduct.standard_name).Nodup := by
  have hperm : (finalizeGroups assoc).Perm ((assoc.map Prod.snd).map setAvg) :=
    List.perm_insertionSort _ _
  have hperm2 : ((finalizeGroups assoc).map GroupedProduct.standard_name).Perm
      (((assoc.map Prod.snd).map setAvg).map GroupedProduct.standard_name) :=
    hperm.map _
  rw [hperm2.nodup_iff]
  have : ((assoc.map Prod.snd).map setAvg).map GroupedProduct.standard_name =
      assoc.map Prod.fst := by
    simp only [List.map_map]
    refine List.map_congr_left ?_
    intro kg hkg
    simp [Function.comp_apply, setAvg_standard_name, hnames kg hkg]
  rw [this]
  exact hkeys

lemma fallbackGroupProducts_keys_nodup (l : List RawProduct) :
    ((fallbackGroupProducts l).map GroupedProduct.standard_name).Nodup := by
  unfold fallbackGroupProducts
  apply map_standard_name_finalizeGroups_nodup
  · apply foldGroups_keys_nodup
    · intro acc p h
      exact updateAssoc_keys_nodup _ _ _ h
    · simp
  · apply foldGroups_standard_name_eq_key
    simp

/-- C1 (counterexample): reconciling the three raw names "AMD Ryzen 5 5600
Processor", "Ryzen5 5600 6-Core", "Ryzen 5 5600" from three vendors in one
batch does NOT yield one canonical product: the fallback grouping keys the
three listings by their first three words, which all differ, so three
canonical products with three distinct names are created. -/
theorem no_duplicate_canonical_counterexample :
    (fallbackGroupProducts ryzen5600Batch).length = 3 ∧
    ((fallbackGroupProducts ryzen5600Batch).map GroupedProduct.standard_name).Nodup := by
  decide

/-- C1 (amended): the grouping step assigns one canonical product per
distinct first-three-words key (it never creates two canonical products
with the same name), and the three Ryzen 5 5600 spellings normalize to
three different keys, so they produce three canonical products, each
holding its own listing. -/
theorem no_duplicate_canonical_amended :
    (∀ l : List RawProduct,
      ((fallbackGroupProducts l).map GroupedProduct.standard_name).Nodup) ∧
    (fallbackGroupProducts ryzen5600Batch).length = 3 ∧
    (∀ p ∈ ryzen5600Batch, ∃ g ∈ fallbackGroupProducts ryzen5600Batch,
      p.raw_name ∈ g.raw_names ∧ g.standard_name = normalize p.raw_name) :=
  ⟨fallbackGroupProducts_keys_nodup, by decide, by decide⟩

/-- C2: the batch ["Ryzen 7 7700", "Ryzen 7 7700X", "Radeon RX 7700XT"]
resolves to three distinct canonical products (the distinct model-number
suffixes are preserved by the grouping key, which never merges them), and
every listing is bound to one of them. -/
theorem distinct_sku_separation :
    (fallbackGroupProducts suffixBatch).length = 3 ∧
    ((fallbackGroupProducts suffixBatch).map GroupedProduct.standard_name).Nodup ∧
    (∀ p ∈ suffixBatch, ∃ g ∈ fallbackGroupProducts suffixBatch,
      p.raw_name ∈ g.raw_names) := by
  decide

/-- C3: aggregating listings priced 18500, 19200, 0, 19500 from vendors
A, B, A, C yields min 18500, max 19500, avg 19066.67 (mean of the three
positive prices, rounded to 2 decimals), 3 distinct vendors and 3 counted
listings: the zero-price row is excluded from every statistic. -/
theorem aggregate_correctness :
    aggregate aggregateBatch =
      some ⟨18500, 19500, 1906667/100, 3, 3⟩ := by
  have hfil : aggregateBatch.filter (fun r => decide (0 < r.price_bdt)) =
      [⟨"A", 18500⟩, ⟨"B", 19200⟩, ⟨"C", 19500⟩] := by decide
  unfold aggregate
  rw [hfil]
  simp only [Option.some.injEq, AggregateView.mk.injEq]
  refine ⟨by decide, by decide, ?_, by decide, by decide⟩
  unfold round2 jsRound
  norm_num

/-- C7: when every mapped listing has a non-positive price the filtered set
is empty, the grouped SQL query yields no row, and the route returns its
sentinel (modelled as `none`) instead of computing any statistic. -/
theorem aggregate_empty_sentinel (rows : List ListingRow)
    (h : rows.filter (fun r => decide (0 < r.price_bdt)) = []) :
    aggregate rows = none := by
  unfold aggregate
  rw [h]

/-- Witness for the empty-aggregate sentinel at a concrete one-row input
whose only price is zero. -/
theorem aggregate_empty_sentinel_witness :
    (([⟨"Vendor A", 0⟩] : List ListingRow).filter (fun r => decide (0 < r.price_bdt)) = []) ∧
    aggregate [⟨"Vendor A", 0⟩] = none :=
  ⟨by decide, aggregate_empty_sentinel [⟨"Vendor A", 0⟩] (by decide)⟩

/-- C8: the grouping functions and the aggregation are pure functions of
their input listing lists: they take no state, perform no input/output and
use no randomness in this embedding, so two runs over the same input
produce identical output, order included. -/
theorem grouping_deterministic (l1 l2 : List RawProduct) (rows1 rows2 : List ListingRow)
    (h : l1 = l2) (hrows : rows1 = rows2) :
    fallbackGroupProducts l1 = fallbackGroupProducts l2 ∧
    groupProductsByAI l1 = groupProductsByAI l2 ∧
    aggregate rows1 = aggregate rows2 := by
  subst h
  subst hrows
  exact ⟨rfl, rfl, rfl⟩

/-- Witness for determinism at the concrete Ryzen batch and aggregate rows. -/
theorem grouping_deterministic_witness :
    fallbackGroupProducts ryzen5600Batch = fallbackGroupProducts ryzen5600Batch ∧
    groupProductsByAI ryzen5600Batch = groupProductsByAI ryzen5600Batch ∧
    aggregate aggregateBatch = aggregate aggregateBatch :=
  grouping_deterministic ryzen5600Batch ryzen5600Batch aggregateBatch aggregateBatch rfl rfl

lemma addEntry_raw_mem (guardPos : Bool) (g : GroupedProduct) (p : RawProduct) :
    p.raw_name ∈ (addEntry guardPos g p).raw_names := by
  simp [addEntry]

lemma addEntry_raw_mono (guardPos : Bool) (g : GroupedProduct) (p : RawProduct)
    (r : String) (h : r ∈ g.raw_names) : r ∈ (addEntry guardPos g p).raw_names := by
  simp [addEntry, h]

lemma setAvg_raw_names (g : GroupedProduct) : (setAvg g).raw_names = g.raw_names := rfl

lemma withAIFold_exists_mono (classify : String → Option Prediction)
    (l : List RawProduct) (acc : List (String × GroupedProduct)) (r : String)
    (hex : ∃ kg ∈ acc, r ∈ kg.2.raw_names) :
    ∃ kg ∈ l.foldl (fun acc q =>
        match classify q.raw_name with
        | none => acc
        | some pred => bindListing false pred.predicted_standard_name pred.confidence acc q) acc,
      r ∈ kg.2.raw_names := by
  induction l generalizing acc with
  | nil => simpa using hex
  | cons q qs ih =>
      simp only [List.foldl_cons]
      rcases hq : classify q.raw_name with _ | pred
      · exact ih acc hex
      · refine ih _ ?_
        exact updateAssoc_exists_mono (fun g => r ∈ g.raw_names) _ _ acc
          (fun g hg => addEntry_raw_mono false g q r hg) hex

lemma withAIFold_raw_present (classify : String → Option Prediction)
    (l : List RawProduct) (acc : List (String × GroupedProduct))
    (p : RawProduct) (hp : p ∈ l)
    (hres : ∀ q ∈ l, (classify q.raw_name).isSome = true) :
    ∃ kg ∈ l.foldl (fun acc q =>
        match classify q.raw_name with
        | none => acc
        | some pred => bindListing false pred.predicted_standard_name pred.confidence acc q) acc,
      p.raw_name ∈ kg.2.raw_names := by
  induction l generalizing acc with
  | nil => simp at hp
  | cons q qs ih =>
      simp only [List.foldl_cons]
      rcases List.mem_cons.mp hp with hp | hp
      · subst hp
        obtain ⟨pred, hpred⟩ := Option.isSome_iff_exists.mp (hres p (by simp))
        rw [hpred]
        refine withAIFold_exists_mono classify qs _ p.raw_name ?_
        exact updateAssoc_exists_self (fun g => p.raw_name ∈ g.raw_names) _ _ acc
          (addEntry_raw_mem false _ p) (fun g => addEntry_raw_mem false g p)
      · rcases hq : classify q.raw_name with _ | pred
        · exact ih acc hp (fun q2 hq2 => hres q2 (List.mem_cons_of_mem q hq2))
        · exact ih _ hp (fun q2 hq2 => hres q2 (List.mem_cons_of_mem q hq2))

/-- C4 (counterexample): with a secondary classifier that times out on every
listing (`classify` constantly `none`), groupProductsWithAI's per-listing
catch block skips every listing, so the three-listing Ryzen batch produces
an EMPTY grouped output: the listings are silently dropped and no fallback
canonical product is created for them inside groupProductsWithAI. (Only a
timeout of the whole 30-second grouping promise in the route handler would
have invoked fallbackGroupProducts instead.) -/
theorem escalation_fallback_counterexample :
    groupProductsWithAI (fun _ => none) ryzen5600Batch = [] ∧ ryzen5600Batch ≠ [] := by
  constructor
  · rfl
  · decide

/-- C4 (amended): when the per-listing classifier promise resolves for every
listing of the batch — which is what happens when the python subprocess
errors, since predictWithAI then resolves with the raw name itself — and
the batch fits in the 50-listing window, every listing is bound to some
canonical product in the grouped output; but a per-listing timeout drops
the listing. -/
theorem escalation_fallback_amended (classify : String → Option Prediction)
    (l : List RawProduct)
    (hres : ∀ q ∈ l, (classify q.raw_name).isSome = true)
    (hlen : l.length ≤ 50) :
    ∀ p ∈ l, ∃ g ∈ groupProductsWithAI classify l, p.raw_name ∈ g.raw_names := by
  intro p hp
  unfold groupProductsWithAI
  rw [List.take_of_length_le hlen]
  obtain ⟨kg, hkg, hmem⟩ := withAIFold_raw_present classify l [] p hp hres
  refine ⟨setAvg kg.2, (mem_finalizeGroups _ _).mpr ⟨kg, hkg, rfl⟩, ?_⟩
  rw [setAvg_raw_names]
  exact hmem

/-- Witness for the amended escalation-fallback theorem: the classifier is
predictWithAI's own error fallback, which always resolves, on a one-listing
batch. -/
theorem escalation_fallback_witness :
    (∀ q ∈ [sampleRow "Vendor A" "GeForce RTX 4060 Ti" 52000],
      (((fun r => some (predictFallback r)) : String → Option Prediction) q.raw_name).isSome = true) ∧
    ([sampleRow "Vendor A" "GeForce RTX 4060 Ti" 52000].length ≤ 50) ∧
    (∀ p ∈ [sampleRow "Vendor A" "GeForce RTX 4060 Ti" 52000],
      ∃ g ∈ groupProductsWithAI (fun r => some (predictFallback r))
          [sampleRow "Vendor A" "GeForce RTX 4060 Ti" 52000],
        p.raw_name ∈ g.raw_names) :=
  ⟨by decide, by decide,
   escalation_fallback_amended (fun r => some (predictFallback r))
     [sampleRow "Vendor A" "GeForce RTX 4060 Ti" 52000] (by decide) (by decide)⟩

lemma pickBest_mem (score : CanonicalProduct → ℚ) (l : List CanonicalProduct)
    (c : CanonicalProduct) (h : pickBest score l = some c) : c ∈ l := by
  induction l with
  | nil => simp [pickBest] at h
  | cons d ds ih =>
      simp only [pickBest] at h
      split at h
      · simp only [Option.some.injEq] at h
        simp [h]
      · rename_i b hrec
        split at h
        · simp only [Option.some.injEq] at h
          simp [h]
        · simp only [Option.some.injEq] at h
          exact List.mem_cons_of_mem d (ih (by rw [hrec, h]))

/-- C5: for every raw name containing the token "NVIDIA", the modelled
Candidate Matcher never returns a canonical product whose category is CPU,
RAM or Motherboard: the brand/category guard excludes such candidates
before similarity scoring, whatever the scoring function. -/
theorem category_guard (score : String → String → ℚ) (raw : String)
    (cands : List CanonicalProduct) (c : CanonicalProduct)
    (hnv : hasTok raw "NVIDIA" = true)
    (hm : matchProduct score raw cands = some c) :
    c.category ≠ PCCategory.cpu ∧ c.category ≠ PCCategory.ram ∧
      c.category ≠ PCCategory.motherboard := by
  unfold matchProduct at hm
  have hc := pickBest_mem _ _ _ hm
  have hc2 := (List.mem_filter.mp hc).1
  have hguard : brandGuardOk raw c = true := (List.mem_filter.mp hc2).2
  unfold brandGuardOk at hguard
  rw [hnv] at hguard
  simp only [Bool.true_and, Bool.and_eq_true, Bool.not_eq_true',
    Bool.or_eq_false_iff, decide_eq_false_iff_not] at hguard
  exact ⟨hguard.1.1.1, hguard.1.1.2, hguard.1.2⟩

/-- Witness for the category guard: the raw name "NVIDIA GeForce RTX 4090"
matched against a roster holding a CPU candidate and a GPU candidate
returns the GPU candidate, whose category is none of CPU, RAM, Motherboard. -/
theorem category_guard_witness :
    hasTok "NVIDIA GeForce RTX 4090" "NVIDIA" = true ∧
    matchProduct constScore "NVIDIA GeForce RTX 4090" guardCands =
      some ⟨2, "NVIDIA GeForce RTX 4090", PCBrand.nvidia, PCCategory.gpu, 2⟩ ∧
    ((⟨2, "NVIDIA GeForce RTX 4090", PCBrand.nvidia, PCCategory.gpu, 2⟩ :
      CanonicalProduct).category ≠ PCCategory.cpu ∧
     (⟨2, "NVIDIA GeForce RTX 4090", PCBrand.nvidia, PCCategory.gpu, 2⟩ :
      CanonicalProduct).category ≠ PCCategory.ram ∧
     (⟨2, "NVIDIA GeForce RTX 4090", PCBrand.nvidia, PCCategory.gpu, 2⟩ :
      CanonicalProduct).category ≠ PCCategory.motherboard) := by
  have hfloor : decide ((3 : ℚ)/5 ≤ constScore "NVIDIA GeForce RTX 4090" "NVIDIA GeForce RTX 4090") = true :=
    decide_eq_true (by norm_num [constScore])
  have hguards : guardCands.filter
      (fun c => brandGuardOk "NVIDIA GeForce RTX 4090" c) =
      [⟨2, "NVIDIA GeForce RTX 4090", PCBrand.nvidia, PCCategory.gpu, 2⟩] := by decide
  have hmatch : matchProduct constScore "NVIDIA GeForce RTX 4090" guardCands =
      some ⟨2, "NVIDIA GeForce RTX 4090", PCBrand.nvidia, PCCategory.gpu, 2⟩ := by
    unfold matchProduct
    rw [hguards]
    simp only [List.filter_cons, List.filter_nil, hfloor, if_true]
    rfl
  exact ⟨by decide, hmatch,
    category_guard constScore "NVIDIA GeForce RTX 4090" guardCands _ (by decide) hmatch⟩

lemma le_ceilDivNat_mul (a b : ℕ) (hb : 1 ≤ b) : a ≤ b * ((a + b - 1) / b) := by
  have hb0 : 0 < b := hb
  have h1 : a + b - 1 ≤ b * ((a + b - 1) / b) + (b - 1) :=
    (Nat.div_le_iff_le_mul_add_pred hb0).mp (le_refl _)
  omega

lemma ceilDivNat_mul_lt (a b : ℕ) (hb : 1 ≤ b) : b * ((a + b - 1) / b) < a + b := by
  have h2 : b * ((a + b - 1) / b) ≤ a + b - 1 := by
    rw [Nat.mul_comm]
    exact Nat.div_mul_le_self _ _
  omega

lemma totalPages_eq_ceilDivNat (a b : ℕ) (hb : 1 ≤ b) :
    totalPages a b = ((a + b - 1) / b : ℕ) := by
  have hb0 : 0 < b := hb
  have hbq : (0 : ℚ) < (b : ℚ) := by exact_mod_cast hb0
  unfold totalPages
  rw [Int.ceil_eq_iff]
  constructor
  · rw [sub_lt_iff_lt_add]
    have hlt : (((a + b - 1) / b : ℕ) : ℚ) * (b : ℚ) < (a : ℚ) + (b : ℚ) := by
      have h := ceilDivNat_mul_lt a b hb
      have h2 : ((a + b - 1) / b) * b < a + b := by
        rw [Nat.mul_comm]
        exact h
      exact_mod_cast h2
    have hdiv : (((a + b - 1) / b : ℕ) : ℚ) < ((a : ℚ) + (b : ℚ)) / (b : ℚ) :=
      (lt_div_iff₀ hbq).mpr hlt
    have hsplit : ((a : ℚ) + (b : ℚ)) / (b : ℚ) = (a : ℚ) / (b : ℚ) + 1 := by
      field_simp
    rw [hsplit] at hdiv
    push_cast
    exact_mod_cast hdiv
  · rw [div_le_iff₀ hbq]
    have h := le_ceilDivNat_mul a b hb
    have h2 : a ≤ ((a + b - 1) / b) * b := by
      rw [Nat.mul_comm]
      exact h
    exact_mod_cast h2

lemma paginate_eq_drop_take {α : Type _} (l : List α) (p limit : ℕ) :
    paginate l p limit = (l.drop ((p - 1) * limit)).take limit := by
  unfold paginate jsSlice
  rw [List.drop_take]
  congr 1
  omega

/-- C10: for page size limit ≥ 1, page p of the listing endpoints is exactly
the slice of the filtered list from (p-1)*limit up to but excluding
p*limit, hence holds at most limit products; totalPages is the ceiling of
total/limit (equal to the usual (total+limit-1)/limit); and concatenating
pages 1 through totalPages reproduces the filtered list exactly. -/
theorem pagination_correct {α : Type _} (l : List α) (limit page : ℕ)
    (hlim : 1 ≤ limit) (hpage : 1 ≤ page) :
    paginate l page limit = (l.drop ((page - 1) * limit)).take limit ∧
    paginate l page limit = jsSlice l ((page - 1) * limit) (page * limit) ∧
    (paginate l page limit).length ≤ limit ∧
    totalPages l.length limit = ((l.length + limit - 1) / limit : ℕ) ∧
    (List.range (totalPages l.length limit).toNat).flatMap
        (fun i => paginate l (i + 1) limit) = l := by
  obtain ⟨q, rfl⟩ : ∃ q, page = q + 1 := ⟨page - 1, by omega⟩
  refine ⟨paginate_eq_drop_take l _ limit, ?_, ?_, totalPages_eq_ceilDivNat _ limit hlim, ?_⟩
  · unfold paginate jsSlice
    have : (q + 1 - 1) * limit + limit = (q + 1) * limit := by
      simp [Nat.succ_mul]
    rw [this]
  · rw [paginate_eq_drop_take]
    simp only [List.length_take]
    exact min_le_left _ _
  · have hchunk : ∀ k : ℕ,
        (List.range k).flatMap (fun i => paginate l (i + 1) limit) = l.take (k * limit) := by
      intro k
      induction k with
      | zero => simp
      | succ k ih =>
          rw [List.range_succ, List.flatMap_append, ih]
          simp only [List.flatMap_cons, List.flatMap_nil, List.append_nil]
          rw [paginate_eq_drop_take]
          simp only [Nat.add_sub_cancel]
          rw [Nat.succ_mul]
          exact (List.take_add l (k * limit) limit).symm
    rw [hchunk]
    refine List.take_of_length_le ?_
    rw [totalPages_eq_ceilDivNat _ limit hlim, Int.toNat_natCast]
    have := le_ceilDivNat_mul l.length limit hlim
    calc l.length ≤ limit * ((l.length + limit - 1) / limit) := this
      _ = ((l.length + limit - 1) / limit) * limit := Nat.mul_comm _ _

/-- Witness for pagination at a concrete five-element list, page 2, limit 2. -/
theorem pagination_correct_witness :
    (1 ≤ 2 ∧ 1 ≤ 2) ∧
    (paginate ["a", "b", "c", "d", "e"] 2 2 = (["a", "b", "c", "d", "e"].drop ((2 - 1) * 2)).take 2 ∧
     paginate ["a", "b", "c", "d", "e"] 2 2 = jsSlice ["a", "b", "c", "d", "e"] ((2 - 1) * 2) (2 * 2) ∧
     (paginate ["a", "b", "c", "d", "e"] 2 2).length ≤ 2 ∧
     totalPages (["a", "b", "c", "d", "e"] : List String).length 2 = ((["a", "b", "c", "d", "e"] : List String).length + 2 - 1) / 2 ∧
     (List.range (totalPages (["a", "b", "c", "d", "e"] : List String).length 2).toNat).flatMap
        (fun i => paginate ["a", "b", "c", "d", "e"] (i + 1) 2) = ["a", "b", "c", "d", "e"]) :=
  ⟨⟨by decide, by decide⟩, pagination_correct ["a", "b", "c", "d", "e"] 2 2 (by decide) (by decide)⟩

lemma dedupAppend_nodup (xs : List String) (v : String) (h : xs.Nodup) :
    (dedupAppend xs v).Nodup := by
  unfold dedupAppend
  split
  · exact h
  · rename_i hv
    simp [List.nodup_append, h, hv]

lemma mem_dedupAppend (xs : List String) (v w : String) :
    w ∈ dedupAppend xs v ↔ w ∈ xs ∨ w = v := by
  unfold dedupAppend
  split
  · rename_i hv
    constructor
    · exact Or.inl
    · rintro (h | rfl)
      · exact h
      · exact hv
  · simp

lemma groupInv_addEntry (guardPos : Bool) (g : GroupedProduct) (p : RawProduct)
    (hupd : (!guardPos || decide (0 < p.price_bdt)) = true)
    (hg : GroupInv g) : GroupInv (addEntry guardPos g p) := by
  have hmin : (addEntry guardPos g p).min_price = min g.min_price p.price_bdt := by
    simp only [addEntry, hupd, if_true]
  have hmax : (addEntry guardPos g p).max_price = max g.max_price p.price_bdt := by
    simp only [addEntry, hupd, if_true]
  have hentries : (addEntry guardPos g p).price_entries = g.price_entries ++ [mkEntry p] := rfl
  have hvendors : (addEntry guardPos g p).vendors = dedupAppend g.vendors p.vendor_name := rfl
  have hrawn : (addEntry guardPos g p).raw_names = g.raw_names ++ [p.raw_name] := rfl
  have htot : (addEntry guardPos g p).total_listings = g.total_listings + 1 := rfl
  have hvc : (addEntry guardPos g p).vendor_count = (dedupAppend g.vendors p.vendor_name).length := rfl
  constructor
  · rw [hentries]
    simp
  · rw [htot, hentries, hg.listings_eq]
    simp
  · rw [hrawn, hentries, List.length_append, List.length_append, hg.raw_eq]
    simp
  · rw [hvendors]
    exact dedupAppend_nodup _ _ hg.vendors_nodup
  · intro v
    rw [hvendors, hentries, mem_dedupAppend, List.map_append, List.mem_append, hg.vendors_mem v]
    simp [mkEntry]
  · rw [hvc, hvendors]
  · intro e he
    rw [hentries] at he
    rw [hmin, hmax]
    rcases List.mem_append.mp he with he | he
    · have hb := hg.bounded e he
      exact ⟨le_trans (min_le_left _ _) hb.1, le_trans hb.2 (le_max_left _ _)⟩
    · have : e = mkEntry p := by simpa using he
      subst this
      exact ⟨min_le_right _ _, le_max_right _ _⟩

lemma groupInv_initGroup (guardPos : Bool) (k : String) (conf : ℚ) (p : RawProduct) :
    GroupInv (addEntry guardPos (initGroup k p conf) p) := by
  have hmin : (addEntry guardPos (initGroup k p conf) p).min_price = p.price_bdt := by
    simp [addEntry, initGroup, min_self]
  have hmax : (addEntry guardPos (initGroup k p conf) p).max_price = p.price_bdt := by
    simp [addEntry, initGroup, max_self]
  constructor
  · simp [addEntry, initGroup]
  · simp [addEntry, initGroup]
  · simp [addEntry, initGroup]
  · simp [addEntry, initGroup, dedupAppend]
  · intro v
    simp [addEntry, initGroup, dedupAppend, mkEntry]
  · simp [addEntry, initGroup, dedupAppend]
  · intro e he
    have : e = mkEntry p := by simpa [addEntry, initGroup] using he
    subst this
    rw [hmin, hmax]
    exact ⟨le_refl _, le_refl _⟩

lemma groupInv_fold (guardPos : Bool) (key : RawProduct → String) (conf : RawProduct → ℚ)
    (l : List RawProduct) (acc : List (String × GroupedProduct))
    (hacc : ∀ kg ∈ acc, GroupInv kg.2)
    (hl : ∀ p ∈ l, (!guardPos || decide (0 < p.price_bdt)) = true) :
    ∀ kg ∈ l.foldl (fun acc p => bindListing guardPos (key p) (conf p) acc p) acc,
      GroupInv kg.2 := by
  induction l generalizing acc with
  | nil => simpa using hacc
  | cons p ps ih =>
      simp only [List.foldl_cons]
      refine ih _ ?_ (fun q hq => hl q (List.mem_cons_of_mem p hq))
      intro kg hkg
      refine updateAssoc_forall (fun kg => GroupInv kg.2) (key p) _ acc hacc ?_ ?_ kg hkg
      · exact groupInv_initGroup guardPos (key p) (conf p) p
      · intro g hg
        exact groupInv_addEntry guardPos g p (hl p (by simp)) hg

lemma setAvg_avg_bounds (g : GroupedProduct) (hg : GroupInv g) :
    g.min_price ≤ (setAvg g).avg_price ∧ (setAvg g).avg_price ≤ g.max_price := by
  have hlen : 0 < (g.price_entries.length : ℚ) := by
    have := List.length_pos.mpr hg.entries_ne
    exact_mod_cast this
  have havg : (setAvg g).avg_price =
      (g.price_entries.map PriceEntry.price_bdt).sum / (g.price_entries.length : ℚ) := rfl
  have hsumlo : (g.price_entries.length : ℚ) * g.min_price ≤
      (g.price_entries.map PriceEntry.price_bdt).sum := by
    have hb : ∀ x ∈ g.price_entries.map PriceEntry.price_bdt, g.min_price ≤ x := by
      intro x hx
      obtain ⟨e, he, rfl⟩ := List.mem_map.mp hx
      exact (hg.bounded e he).1
    have := List.card_nsmul_le_sum (g.price_entries.map PriceEntry.price_bdt) g.min_price hb
    simpa [nsmul_eq_mul] using this
  have hsumhi : (g.price_entries.map PriceEntry.price_bdt).sum ≤
      (g.price_entries.length : ℚ) * g.max_price := by
    have hb : ∀ x ∈ g.price_entries.map PriceEntry.price_bdt, x ≤ g.max_price := by
      intro x hx
      obtain ⟨e, he, rfl⟩ := List.mem_map.mp hx
      exact (hg.bounded e he).2
    have := List.sum_le_card_nsmul (g.price_entries.map PriceEntry.price_bdt) g.max_price hb
    simpa [nsmul_eq_mul] using this
  rw [havg]
  constructor
  · rw [le_div_iff₀ hlen]
    rw [mul_comm]
    exact hsumlo
  · rw [div_le_iff₀ hlen]
    rw [mul_comm]
    exact hsumhi

lemma outputInv_setAvg (g : GroupedProduct) (hg : GroupInv g) : OutputInv (setAvg g) := by
  have hb := setAvg_avg_bounds g hg
  have hcard : g.vendor_count = (g.price_entries.map PriceEntry.vendor_name).toFinset.card := by
    rw [hg.vcount, ← List.toFinset_card_of_nodup hg.vendors_nodup]
    congr 1
    ext v
    simp only [List.mem_toFinset]
    exact hg.vendors_mem v
  refine ⟨hb.1, hb.2, hcard, ?_, hg.listings_eq, ?_⟩
  · show g.vendor_count ≤ g.total_listings
    rw [hcard, hg.listings_eq]
    calc (g.price_entries.map PriceEntry.vendor_name).toFinset.card
        ≤ (g.price_entries.map PriceEntry.vendor_name).length := List.toFinset_card_le _
      _ = g.price_entries.length := List.length_map _ _
  · show g.total_listings = g.raw_names.length
    rw [hg.listings_eq, hg.raw_eq]

/-- C9: for every batch of positively-priced listings, every grouped product
emitted by groupProductsByAI and by fallbackGroupProducts satisfies
min_price ≤ avg_price ≤ max_price, its vendor_count is the number of
distinct vendor names among its price entries, vendor_count ≤
total_listings, and total_listings equals the number of price entries and
of raw names. -/
theorem grouped_output_invariant (l : List RawProduct)
    (hl : ∀ p ∈ l, 0 < p.price_bdt) :
    (∀ g ∈ groupProductsByAI l, OutputInv g) ∧
    (∀ g ∈ fallbackGroupProducts l, OutputInv g) := by
  constructor
  · intro g hg
    unfold groupProductsByAI at hg
    obtain ⟨kg, hkg, rfl⟩ := (mem_finalizeGroups g _).mp hg
    exact outputInv_setAvg _
      (groupInv_fold true aiKey (fun _ => 17/20) l [] (by simp)
        (fun p hp => by simp [hl p hp]) kg hkg)
  · intro g hg
    unfold fallbackGroupProducts at hg
    obtain ⟨kg, hkg, rfl⟩ := (mem_finalizeGroups g _).mp hg
    exact outputInv_setAvg _
      (groupInv_fold false (fun p => normalize p.raw_name) (fun _ => 1/2) l [] (by simp)
        (fun p hp => by simp) kg hkg)

/-- Witness for the grouped-output invariant at the concrete Ryzen batch. -/
theorem grouped_output_invariant_witness :
    (∀ p ∈ ryzen5600Batch, 0 < p.price_bdt) ∧
    ((∀ g ∈ groupProductsByAI ryzen5600Batch, OutputInv g) ∧
     (∀ g ∈ fallbackGroupProducts ryzen5600Batch, OutputInv g)) :=
  ⟨by decide, grouped_output_invariant ryzen5600Batch (by decide)⟩

end BuySmarter
